import Mathlib

set_option maxHeartbeats 1000000

/-!
Verification development for the claim-process-flow dashboard's incremental
process-flow tree model.  The JavaScript sources are shallowly embedded:

* `src/activity_tree.js` (activity-level tree with group nodes): `FlowNode`,
  `expandNode`, `collapseNode`, `clickNode`, `loadAllStartingProcesses`
  (pure part embedded as `buildTree`).
* `src/unnamed/part_000` (flat node/link graph variant):
  `GState`, `expandNodeG`, `collapseNodeG`, `findDescendants`.
* `src/unnamed/part_002` (process-level tree variant):
  `loadAllStartingProcesses` embedded as `buildRootP`.

JavaScript numbers that only flow through the model unchanged (counts,
percentages, durations) are modeled as `Nat`; the asynchronous fetch is
modeled as an `Except String _` argument supplied to `expandNode` (an
`Except.error` value models a thrown / non-2xx fetch); rendering calls
(`drawTree`) have no effect on the tree data and are omitted.
-/

namespace ClaimFlow

/-- A raw child entry of a group bucket as returned by the backend inside a
`next_steps`/`starting_nodes` entry (`{node_name, count, percentage,
avg_duration_minutes}`). -/
structure RawChild where
  node_name : String
  count : Nat
  percentage : Nat
  avg_duration_minutes : Nat
deriving DecidableEq, Repr

/-- A stored, not-yet-promoted child of a group node, as built by
`storedChildren: step.children.map(c => ({node_name, name, count, percentage,
avgDuration}))` in activity_tree.js.  (The starting-group variant also stores
`id`/`path`/`children`/`hasChildren` fields, but those are overwritten when
the group is expanded, so they are not carried here.) -/
structure StoredChild where
  node_name : String
  name : String
  count : Nat
  percentage : Nat
  avgDuration : Nat
deriving DecidableEq, Repr

/-- The scalar attributes of a tree node in activity_tree.js.  Fields absent
from a given JavaScript object literal are `undefined`, i.e. falsy; they are
modeled as `false` / `none` / `0`.  `fx`/`fy` are the optional pinned layout
coordinates written by the drag handlers. -/
structure NodeAttrs where
  id : String
  name : String
  node_name : String
  count : Nat
  percentage : Nat
  avgDuration : Nat
  path : List String
  storedChildren : Option (List StoredChild)
  hasChildren : Bool
  isGroup : Bool
  isStarting : Bool
  isRoot : Bool
  isTermination : Bool
  expanded : Bool
  activity_count : Nat
  fx : Option Int
  fy : Option Int
deriving DecidableEq, Repr

/-- A node of the activity flow tree: its scalar attributes plus the list of
currently visible children (`children` in the source). -/
inductive FlowNode where
  | mk : NodeAttrs → List FlowNode → FlowNode

def FlowNode.attrs : FlowNode → NodeAttrs
  | FlowNode.mk a _ => a

def FlowNode.children : FlowNode → List FlowNode
  | FlowNode.mk _ cs => cs

def FlowNode.id (n : FlowNode) : String := n.attrs.id

def FlowNode.name (n : FlowNode) : String := n.attrs.name

def FlowNode.node_name (n : FlowNode) : String := n.attrs.node_name

def FlowNode.count (n : FlowNode) : Nat := n.attrs.count

def FlowNode.percentage (n : FlowNode) : Nat := n.attrs.percentage

def FlowNode.avgDuration (n : FlowNode) : Nat := n.attrs.avgDuration

def FlowNode.path (n : FlowNode) : List String := n.attrs.path

def FlowNode.storedChildren (n : FlowNode) : Option (List StoredChild) :=
  n.attrs.storedChildren

def FlowNode.hasChildren (n : FlowNode) : Bool := n.attrs.hasChildren

def FlowNode.isGroup (n : FlowNode) : Bool := n.attrs.isGroup

def FlowNode.isStarting (n : FlowNode) : Bool := n.attrs.isStarting

def FlowNode.isRoot (n : FlowNode) : Bool := n.attrs.isRoot

def FlowNode.isTermination (n : FlowNode) : Bool := n.attrs.isTermination

def FlowNode.expanded (n : FlowNode) : Bool := n.attrs.expanded

/-- `node_name.split(' | ')[1] || node_name`: the display name is the part of
a compound "Process | Activity" key after the separator, falling back to the
whole key when there is no separator or the part is empty (falsy). -/
def displayName (s : String) : String :=
  match (s.splitOn " | ").drop 1 with
  | [] => s
  | t :: _ => if t = "" then s else t

/-- Stable insertion of `x` into a count-descending list: `x` is placed
before the first strictly smaller element, after equal ones that were
originally earlier.  Together with `sortByCountDesc` this models the stable
`Array.prototype.sort((a, b) => b.count - a.count)`. -/
def insertByCountDesc (count : α → Nat) (x : α) : List α → List α
  | [] => [x]
  | y :: ys => if count y ≤ count x then x :: y :: ys
               else y :: insertByCountDesc count x ys

/-- Stable sort by descending `count` (see `insertByCountDesc`). -/
def sortByCountDesc (count : α → Nat) : List α → List α
  | [] => []
  | x :: xs => insertByCountDesc count x (sortByCountDesc count xs)

/-- `groupChildrenByProcess` from activity_tree.js: despite the name it does
not group, it just returns the entries sorted by descending count. -/
def groupChildrenByProcess (count : α → Nat) (nodes : List α) : List α :=
  sortByCountDesc count nodes

/-- The child-id computation of the activity tree:
`'node_' + childPath.join(';;')`. -/
def computeChildId (childPath : List String) : String :=
  "node_" ++ String.intercalate ";;" childPath

/-- Termination statistics of a next-steps response (`terminations`). -/
structure TermStats where
  count : Nat
  percentage : Nat
deriving DecidableEq, Repr

/-- One entry of `next_steps` in the activity next-steps response.  For group
entries (`isGroup`) the backend also supplies `children` and
`activity_count`. -/
structure StepEntry where
  process : String
  node_name : String
  count : Nat
  percentage : Nat
  avg_duration_minutes : Nat
  isGroup : Bool
  children : List RawChild
  activity_count : Nat
deriving DecidableEq, Repr

/-- The `/activity-flow/next-steps` response body.  A missing `terminations`
object is `none`; a missing or empty `next_steps` array is `[]`. -/
structure NextStepsResponse where
  terminations : Option TermStats
  next_steps : List StepEntry
deriving DecidableEq, Repr

/-- Promotion of one stored group child into a full node (the body of
`nodeData.children = nodeData.storedChildren.map(c => ...)` in `expandNode`):
the child path is `[c.node_name]` when the group is a starting bucket and
`nodeData.path ++ [c.node_name]` otherwise; the id is recomputed from that
path and `hasChildren` is forced to `true`. -/
def promoteStoredChild (parent : NodeAttrs) (c : StoredChild) : FlowNode :=
  let childPath : List String :=
    if parent.isStarting then [c.node_name] else parent.path ++ [c.node_name]
  FlowNode.mk
    { id := computeChildId childPath
      name := c.name
      node_name := c.node_name
      count := c.count
      percentage := c.percentage
      avgDuration := c.avgDuration
      path := childPath
      storedChildren := none
      hasChildren := true
      isGroup := false
      isStarting := false
      isRoot := false
      isTermination := false
      expanded := false
      activity_count := 0
      fx := none
      fy := none } []

/-- The termination child pushed by `expandNode` when
`data.terminations.count > 0`: path `fullPath ++ ['END']`, id computed from
that path, flagged `isTermination`. -/
def mkTermChild (fullPath : List String) (t : TermStats) : FlowNode :=
  let termPath : List String := fullPath ++ ["END"]
  FlowNode.mk
    { id := computeChildId termPath
      name := "🏁 Terminated"
      node_name := ""
      count := t.count
      percentage := t.percentage
      avgDuration := 0
      path := termPath
      storedChildren := none
      hasChildren := false
      isGroup := false
      isStarting := false
      isRoot := false
      isTermination := true
      expanded := false
      activity_count := 0
      fx := none
      fy := none } []

/-- One next-step child pushed by `expandNode`.  A group entry keeps the
parent path unchanged ("Group doesn't add to path for API calls") and gets id
`'node_' + path.join(';;') + '_group_' + step.process` plus its
`storedChildren`; a single activity extends the path by its `node_name` and
gets the path-derived id. -/
def mkStepChild (fullPath : List String) (step : StepEntry) : FlowNode :=
  if step.isGroup then
    let childPath : List String := fullPath
    FlowNode.mk
      { id := computeChildId childPath ++ "_group_" ++ step.process
        name := step.process
        node_name := step.node_name
        count := step.count
        percentage := step.percentage
        avgDuration := step.avg_duration_minutes
        path := childPath
        storedChildren := some (step.children.map (fun c =>
          { node_name := c.node_name
            name := displayName c.node_name
            count := c.count
            percentage := c.percentage
            avgDuration := c.avg_duration_minutes }))
        hasChildren := true
        isGroup := true
        isStarting := false
        isRoot := false
        isTermination := false
        expanded := false
        activity_count := step.activity_count
        fx := none
        fy := none } []
  else
    let childPath : List String := fullPath ++ [step.node_name]
    FlowNode.mk
      { id := computeChildId childPath
        name := displayName step.node_name
        node_name := step.node_name
        count := step.count
        percentage := step.percentage
        avgDuration := step.avg_duration_minutes
        path := childPath
        storedChildren := none
        hasChildren := true
        isGroup := false
        isStarting := false
        isRoot := false
        isTermination := false
        expanded := false
        activity_count := 0
        fx := none
        fy := none } []

/-- `expandNode` from activity_tree.js.  The asynchronous
`fetchAPI('/activity-flow/next-steps?path=...')` is supplied as the `fetched`
argument; `Except.error` models a thrown / non-2xx fetch, in which case the
`catch` branch only logs and alerts, leaving the node untouched.  Guard
order follows the source: termination/root first, then the group branch
(`nodeData.isGroup && nodeData.storedChildren`, where a present-but-empty
`storedChildren` array is truthy), then the fetch.  On success the children
are cleared and rebuilt: the termination child first (when
`terminations.count > 0`), then the next-step entries sorted by
`groupChildrenByProcess`. -/
def expandNode (n : FlowNode) (fetched : Except String NextStepsResponse) :
    FlowNode :=
  match n with
  | FlowNode.mk a cs =>
    if a.isTermination || a.isRoot then FlowNode.mk a cs
    else if a.isGroup && a.storedChildren.isSome then
      FlowNode.mk { a with expanded := true }
        ((a.storedChildren.getD []).map (promoteStoredChild a))
    else
      match fetched with
      | Except.error _ => FlowNode.mk a cs
      | Except.ok data =>
        let fullPath := a.path
        let termKids : List FlowNode :=
          match data.terminations with
          | some t => if 0 < t.count then [mkTermChild fullPath t] else []
          | none => []
        let stepKids : List FlowNode :=
          (groupChildrenByProcess StepEntry.count data.next_steps).map
            (mkStepChild fullPath)
        FlowNode.mk { a with expanded := true } (termKids ++ stepKids)

/-- `collapseNode` from activity_tree.js (identical in part_001 and
part_002): set `children = []` and `expanded = false`; the subsequent
`drawTree` call is rendering only and does not modify the node. -/
def collapseNode : FlowNode → FlowNode
  | FlowNode.mk a _ => FlowNode.mk { a with expanded := false } []

/-- The click handler installed by `drawSingleTree`: a click is ignored for
termination and root nodes, collapses an expanded node, and expands a
collapsed node that `hasChildren`. -/
def clickNode (n : FlowNode) (fetched : Except String NextStepsResponse) :
    FlowNode :=
  if n.attrs.isTermination || n.attrs.isRoot then n
  else if n.attrs.expanded then collapseNode n
  else if n.attrs.hasChildren then expandNode n fetched
  else n

/-- One entry of `starting_nodes` in the `/activity-flow/starting-nodes`
response. -/
structure StartingEntry where
  process : String
  node_name : String
  count : Nat
  percentage : Nat
  avg_duration_minutes : Nat
  isGroup : Bool
  children : List RawChild
  activity_count : Nat
deriving DecidableEq, Repr

/-- The `/activity-flow/starting-nodes` response body. -/
structure StartingResponse where
  total_claims : Nat
  starting_nodes : List StartingEntry
deriving DecidableEq, Repr

/-- One starting child built by `loadAllStartingProcesses` in
activity_tree.js: a group keeps its compound `node_name` as id seed and
carries pre-fetched `storedChildren`; a single activity has no stored
children.  Both have `path = [node_name]` and are flagged `isStarting`. -/
def mkStartingNode (node : StartingEntry) : FlowNode :=
  if node.isGroup then
    FlowNode.mk
      { id := "node_" ++ node.node_name
        name := node.process
        node_name := node.node_name
        count := node.count
        percentage := node.percentage
        avgDuration := node.avg_duration_minutes
        path := [node.node_name]
        storedChildren := some (node.children.map (fun c =>
          { node_name := c.node_name
            name := displayName c.node_name
            count := c.count
            percentage := c.percentage
            avgDuration := c.avg_duration_minutes }))
        hasChildren := true
        isGroup := true
        isStarting := true
        isRoot := false
        isTermination := false
        expanded := false
        activity_count := node.activity_count
        fx := none
        fy := none } []
  else
    FlowNode.mk
      { id := "node_" ++ node.node_name
        name := displayName node.node_name
        node_name := node.node_name
        count := node.count
        percentage := node.percentage
        avgDuration := node.avg_duration_minutes
        path := [node.node_name]
        storedChildren := none
        hasChildren := true
        isGroup := false
        isStarting := true
        isRoot := false
        isTermination := false
        expanded := false
        activity_count := 0
        fx := none
        fy := none } []

/-- The pure part of `loadAllStartingProcesses` in activity_tree.js: the
synthetic `root_start` START node with `count = data.total_claims` and one
child per starting entry, sorted by `groupChildrenByProcess` (descending
count). -/
def buildTree (data : StartingResponse) : FlowNode :=
  FlowNode.mk
    { id := "root_start"
      name := "START"
      node_name := ""
      count := data.total_claims
      percentage := 100
      avgDuration := 0
      path := []
      storedChildren := none
      hasChildren := false
      isGroup := false
      isStarting := false
      isRoot := true
      isTermination := false
      expanded := true
      activity_count := 0
      fx := none
      fy := none }
    ((groupChildrenByProcess StartingEntry.count data.starting_nodes).map
      mkStartingNode)

/-! ### Tree traversal helpers and applying an operation at a node id

In the source the operations mutate one node object in place in the shared
`treeData`.  In the functional embedding they are applied at the (unique)
node carrying a given id; all other nodes are rebuilt unchanged. -/

mutual

/-- Apply `collapseNode` at every node whose id is `tid` (in the reachable
states ids are unique, so at most one node is hit). -/
def collapseAt (tid : String) : FlowNode → FlowNode
  | FlowNode.mk a cs =>
    if a.id = tid then collapseNode (FlowNode.mk a cs)
    else FlowNode.mk a (collapseAtList tid cs)

def collapseAtList (tid : String) : List FlowNode → List FlowNode
  | [] => []
  | c :: cs => collapseAt tid c :: collapseAtList tid cs

end

mutual

/-- Apply `expandNode` (with the given fetch result) at every node whose id
is `tid`. -/
def expandAt (tid : String) (fetched : Except String NextStepsResponse) :
    FlowNode → FlowNode
  | FlowNode.mk a cs =>
    if a.id = tid then expandNode (FlowNode.mk a cs) fetched
    else FlowNode.mk a (expandAtList tid fetched cs)

def expandAtList (tid : String) (fetched : Except String NextStepsResponse) :
    List FlowNode → List FlowNode
  | [] => []
  | c :: cs => expandAt tid fetched c :: expandAtList tid fetched cs

end

mutual

/-- Attributes of all nodes of the tree, in preorder. -/
def attrsList : FlowNode → List NodeAttrs
  | FlowNode.mk a cs => a :: attrsListList cs

def attrsListList : List FlowNode → List NodeAttrs
  | [] => []
  | c :: cs => attrsList c ++ attrsListList cs

end

mutual

/-- Number of nodes in the tree with `isRoot = true`. -/
def countRoots : FlowNode → Nat
  | FlowNode.mk a cs => (if a.isRoot then 1 else 0) + countRootsList cs

def countRootsList : List FlowNode → Nat
  | [] => 0
  | c :: cs => countRoots c + countRootsList cs

end

mutual

/-- `true` when no node of the tree (including its top node) has
`isRoot = true`. -/
def noRootAll : FlowNode → Bool
  | FlowNode.mk a cs => !a.isRoot && noRootAllList cs

def noRootAllList : List FlowNode → Bool
  | [] => true
  | c :: cs => noRootAll c && noRootAllList cs

end

/-- The shape invariant of every materialized snapshot: the top node is the
root and nothing below it is flagged as a root. -/
def rootOnlyAtTop : FlowNode → Bool
  | FlowNode.mk a cs => a.isRoot && noRootAllList cs

mutual

/-- Attributes of the nodes lying strictly below a node whose id is `tid`
(the subtree that a collapse of `tid` discards). -/
def strictDescAttrs (tid : String) : FlowNode → List NodeAttrs
  | FlowNode.mk a cs =>
    if a.id = tid then attrsListList cs else strictDescAttrsList tid cs

def strictDescAttrsList (tid : String) : List FlowNode → List NodeAttrs
  | [] => []
  | c :: cs => strictDescAttrs tid c ++ strictDescAttrsList tid cs

end

/-! ### The flat node/link graph variant (src/unnamed/part_000) -/

/-- A link of the flat graph: `{source, target}` stored as node ids (in the
source a link endpoint may be a raw id or a resolved node object, read back
via `link.source.id || link.source`; the embedding stores the id). -/
structure GLink where
  source : String
  target : String
deriving DecidableEq, Repr

/-- A node of the flat graph (layout coordinates `x`/`y`/`radius` are not
modeled; node semantics never depend on them). -/
structure GNode where
  id : String
  name : String
  count : Nat
  percentage : Nat
  depth : Nat
  path : List String
  parentId : Option String
  isStarting : Bool
  isTermination : Bool
deriving DecidableEq, Repr

/-- The module-level mutable state of part_000: the `nodes` and `links`
arrays. -/
structure GState where
  nodes : List GNode
  links : List GLink
deriving DecidableEq, Repr

/-- `findDescendants` from part_000's `collapseNode`: for every link whose
source is `pid`, record its target and recurse into the target.  The
JavaScript recursion is bounded only by the call stack; `fuel` bounds the
recursion depth in the embedding (every materialized graph is a tree of
depth at most `links.length`, so any `fuel` that large is equivalent to the
unbounded recursion). -/
def findDescendants (links : List GLink) : Nat → String → List String
  | 0, _ => []
  | fuel + 1, pid =>
    (links.filter (fun l => l.source == pid)).flatMap
      (fun l => l.target :: findDescendants links fuel l.target)

/-- `collapseNode` from part_000: remove every discovered descendant from
`nodes` and every link whose source is the collapsed node or one of its
discovered descendants from `links`. -/
def collapseNodeG (fuel : Nat) (st : GState) (nid : String) : GState :=
  let nodesToRemove := findDescendants st.links fuel nid
  { nodes := st.nodes.filter (fun n => !nodesToRemove.contains n.id)
    links := st.links.filter
      (fun l => !(l.source == nid || nodesToRemove.contains l.source)) }

/-- One entry of `next_steps` in the process-flow responses consumed by
part_000. -/
structure ProcStep where
  process : String
  count : Nat
  percentage : Nat
deriving DecidableEq, Repr

/-- A `process-flow` / `process-flow-after-path` response body. -/
structure FlowResponseG where
  next_steps : List ProcStep
  terminations : Option TermStats
deriving DecidableEq, Repr

/-- The body of part_000's next-steps loop: the child id is
`node.id + '_' + step.process`; if a node with that id already exists
nothing is added, otherwise the child node and the link from the parent are
pushed. -/
def addStepChild (parent : GNode) (st : GState) (step : ProcStep) : GState :=
  let childId := parent.id ++ "_" ++ step.process
  if st.nodes.any (fun m => m.id == childId) then st
  else
    { nodes := st.nodes ++
        [{ id := childId
           name := step.process
           count := step.count
           percentage := step.percentage
           depth := parent.depth + 1
           path := parent.path ++ [step.process]
           parentId := some parent.id
           isStarting := false
           isTermination := false }]
      links := st.links ++ [{ source := parent.id, target := childId }] }

/-- The termination branch of part_000's `expandNode`: when
`terminations.count > 0`, add an `END` child with id `node.id + '_END'`
unless that id already exists. -/
def addTermChild (parent : GNode) (st : GState) (r : FlowResponseG) : GState :=
  match r.terminations with
  | none => st
  | some t =>
    if 0 < t.count then
      let termId := parent.id ++ "_END"
      if st.nodes.any (fun m => m.id == termId) then st
      else
        { nodes := st.nodes ++
            [{ id := termId
               name := "END"
               count := t.count
               percentage := t.percentage
               depth := parent.depth + 1
               path := parent.path ++ ["END"]
               parentId := some parent.id
               isStarting := false
               isTermination := true }]
          links := st.links ++ [{ source := parent.id, target := termId }] }
    else st

/-- `expandNode` from part_000.  A termination node is inert; a node that
already has an outgoing link is collapsed instead (click toggling); otherwise
the fetched flow data is folded in: the next-step children first, then the
termination child. -/
def expandNodeG (fuel : Nat) (st : GState) (n : GNode) (r : FlowResponseG) :
    GState :=
  if n.isTermination then st
  else if st.links.any (fun l => l.source == n.id) then collapseNodeG fuel st n.id
  else addTermChild n (r.next_steps.foldl (addStepChild n) st) r

/-- The node ids currently materialized in the flat graph. -/
def idsG (st : GState) : List String := st.nodes.map GNode.id

/-- Reachability along links (`Reach links a b`: there is a non-empty chain
of links from `a` to `b`); this is the set part_000's `findDescendants`
explores with an unbounded stack. -/
inductive Reach (links : List GLink) : String → String → Prop
  | single (l : GLink) (hl : l ∈ links) : Reach links l.source l.target
  | cons (l : GLink) (b : String) (hl : l ∈ links)
      (h : Reach links l.target b) : Reach links l.source b

/-! ### The process-level tree variant (src/unnamed/part_002) -/

/-- One entry of `starting_processes` in the `/starting-processes`
response. -/
structure SP where
  process : String
  count : Nat
  percentage : Nat
  avg_duration : Nat
deriving DecidableEq, Repr

/-- The `/starting-processes` response body; `total_claims` may be missing
(`none`) or `0`, both falsy in the source's fallback. -/
structure StartingProcessesResponse where
  total_claims : Option Nat
  starting_processes : List SP
deriving DecidableEq, Repr

/-- One starting child built by part_002's `loadAllStartingProcesses`:
id `'node_' + sp.process`, `path = [sp.process]`, no grouping (the
process-level variant has no group nodes). -/
def mkStartingNodeP (sp : SP) : FlowNode :=
  FlowNode.mk
    { id := "node_" ++ sp.process
      name := sp.process
      node_name := ""
      count := sp.count
      percentage := sp.percentage
      avgDuration := sp.avg_duration
      path := [sp.process]
      storedChildren := none
      hasChildren := true
      isGroup := false
      isStarting := true
      isRoot := false
      isTermination := false
      expanded := false
      activity_count := 0
      fx := none
      fy := none } []

/-- `data.total_claims || starting_processes.reduce((sum, sp) => sum +
sp.count, 0)`: a missing or zero (falsy) total falls back to the sum of the
starting counts. -/
def totalClaimsOf (data : StartingProcessesResponse) : Nat :=
  match data.total_claims with
  | some t =>
    if t = 0 then data.starting_processes.foldl (fun s sp => s + sp.count) 0
    else t
  | none => data.starting_processes.foldl (fun s sp => s + sp.count) 0

/-- The pure part of part_002's `loadAllStartingProcesses`: the synthetic
`root_start` START node with one child per starting process, in the order the
backend returned them (this variant does not sort). -/
def buildRootP (data : StartingProcessesResponse) : FlowNode :=
  FlowNode.mk
    { id := "root_start"
      name := "START"
      node_name := ""
      count := totalClaimsOf data
      percentage := 100
      avgDuration := 0
      path := []
      storedChildren := none
      hasChildren := false
      isGroup := false
      isStarting := false
      isRoot := true
      isTermination := false
      expanded := true
      activity_count := 0
      fx := none
      fy := none }
    (data.starting_processes.map mkStartingNodeP)

/-! ### Path separator strings (claim C8)

JavaScript strings are modeled as `List Char` here so that the exact
semantics of `Array.prototype.join(';;')` and `String.prototype.split(';;')`
(leftmost, non-overlapping matches) are explicit. -/

/-- `path.join(';;')` on character lists: the separator `;;` is placed
between consecutive keys. -/
def joinSS : List (List Char) → List Char
  | [] => []
  | [k] => k
  | k :: k2 :: rest => k ++ ';' :: ';' :: joinSS (k2 :: rest)

/-- The scanning loop of `String.prototype.split(';;')`: `acc` is the piece
accumulated since the last separator; a leftmost occurrence of `;;` ends the
current piece and the scan resumes after the two separator characters. -/
def splitSSAux : List Char → List Char → List (List Char)
  | [], acc => [acc]
  | [c], acc => [acc ++ [c]]
  | c1 :: c2 :: rest, acc =>
    if c1 == ';' && c2 == ';' then acc :: splitSSAux rest []
    else splitSSAux (c2 :: rest) (acc ++ [c1])

/-- `str.split(';;')` on character lists. -/
def splitSS (s : List Char) : List (List Char) :=
  splitSSAux s []

/-- Whether a key contains the substring `;;` (two adjacent semicolons). -/
def hasSS : List Char → Bool
  | [] => false
  | [_] => false
  | c1 :: c2 :: rest => (c1 == ';' && c2 == ';') || hasSS (c2 :: rest)

/-- Whether a key ends with the character `;`. -/
def endsSemi (k : List Char) : Bool :=
  k.getLast? == some ';'

/-- The activity-level request path (activity_tree.js:
`nodeData.path.join(';;')`). -/
def activityPathStr (pth : List (List Char)) : List Char :=
  joinSS pth

/-- The process-level request path (part_002 / part_000:
`fullPath.join(',')`). -/
def processPathStr : List (List Char) → List Char
  | [] => []
  | [k] => k
  | k :: k2 :: rest => k ++ ',' :: processPathStr (k2 :: rest)

/-! ### Concrete fixtures used by witnesses and counterexamples -/

/-- A failed fetch (thrown / non-2xx). -/
def fetchErr : Except String NextStepsResponse :=
  Except.error "network error"

/-- An ordinary (non-group) starting activity node "A". -/
def exNode : FlowNode :=
  FlowNode.mk
    { id := "node_A"
      name := "A"
      node_name := "A"
      count := 60
      percentage := 60
      avgDuration := 0
      path := ["A"]
      storedChildren := none
      hasChildren := true
      isGroup := false
      isStarting := true
      isRoot := false
      isTermination := false
      expanded := false
      activity_count := 0
      fx := none
      fy := none } []

/-- A starting group node with two stored children. -/
def exGroup : FlowNode :=
  FlowNode.mk
    { id := "node_GroupA"
      name := "GroupA"
      node_name := "GroupA"
      count := 10
      percentage := 50
      avgDuration := 0
      path := ["GroupA"]
      storedChildren := some
        [{ node_name := "P | X", name := "X", count := 7, percentage := 70,
           avgDuration := 1 },
         { node_name := "P | Y", name := "Y", count := 3, percentage := 30,
           avgDuration := 1 }]
      hasChildren := true
      isGroup := true
      isStarting := true
      isRoot := false
      isTermination := false
      expanded := false
      activity_count := 2
      fx := none
      fy := none } []

/-- A next-steps response with one termination bucket and one single next
activity. -/
def exData : NextStepsResponse :=
  { terminations := some { count := 12, percentage := 20 }
    next_steps := [{ process := "C", node_name := "C", count := 48,
                     percentage := 80, avg_duration_minutes := 5,
                     isGroup := false, children := [], activity_count := 0 }] }

/-! ### C1 — expansion is atomic on fetch failure -/

/-- C1.  For a non-root, non-termination, non-group node, a failed
next-steps fetch (`Except.error`, modeling a thrown / non-2xx request)
leaves the node completely unchanged: `children`, `expanded` and every other
field keep their prior values, and no child is partially added. -/
theorem expand_error_leaves_node_unchanged (n : FlowNode) (e : String)
    (h1 : n.isRoot = false) (h2 : n.isTermination = false)
    (h3 : n.isGroup = false) :
    expandNode n (Except.error e) = n := by
  cases n with
  | mk a cs =>
    simp only [FlowNode.isRoot, FlowNode.isTermination, FlowNode.isGroup,
      FlowNode.attrs] at h1 h2 h3
    simp [expandNode, h1, h2, h3]

/-- Witness for C1 at the concrete node `exNode`. -/
theorem expand_error_leaves_node_unchanged_witness :
    expandNode exNode (Except.error "network error") = exNode :=
  expand_error_leaves_node_unchanged exNode "network error" rfl rfl rfl

/-! ### C2 — group-child path computation -/

/-- C2, counterexample to the claim as stated.  The claim says that for a
*starting* group the promoted children keep the group's own path
(`g.path` unchanged); in the source the promoted path of a starting group's
child is `[c.node_name]`, which differs from `exGroup.path = ["GroupA"]`. -/
theorem group_child_path_claim_cex :
    ¬ (∀ c ∈ (expandNode exGroup fetchErr).children,
        FlowNode.path c = FlowNode.path exGroup) := by
  intro h
  have hm : (expandNode exGroup fetchErr).children.map FlowNode.path
      = [["P | X"], ["P | Y"]] := by rfl
  have hx : (["P | X"] : List String)
      ∈ (expandNode exGroup fetchErr).children.map FlowNode.path := by
    rw [hm]; simp
  obtain ⟨c, hc, hcp⟩ := List.mem_map.mp hx
  have hgp : FlowNode.path exGroup = ["GroupA"] := rfl
  have := h c hc
  rw [this, hgp] at hcp
  simp at hcp

/-- C2, amended.  Expanding a group node with stored children promotes each
stored child into a full node whose path is `[c.node_name]` (the child's own
key as a fresh one-element path) when the group is a starting bucket, and
`g.path ++ [c.node_name]` otherwise; no fetch is consulted in either case
(the result is independent of the fetch argument), and exactly one child is
produced per stored child. -/
theorem group_child_path_promotion (g : FlowNode) (scs : List StoredChild)
    (r r1 r2 : Except String NextStepsResponse)
    (h1 : g.isRoot = false) (h2 : g.isTermination = false)
    (h3 : g.isGroup = true) (hs : g.storedChildren = some scs) :
    (expandNode g r).children.map FlowNode.path
      = scs.map (fun c =>
          if g.isStarting then [c.node_name] else g.path ++ [c.node_name])
    ∧ expandNode g r1 = expandNode g r2
    ∧ (expandNode g r).children.length = scs.length := by
  cases g with
  | mk a cs =>
    simp only [FlowNode.isRoot, FlowNode.isTermination, FlowNode.isGroup,
      FlowNode.storedChildren, FlowNode.attrs] at h1 h2 h3 hs
    refine ⟨?_, ?_, ?_⟩
    · simp [expandNode, h1, h2, h3, hs, FlowNode.children, FlowNode.isStarting,
        FlowNode.path, FlowNode.attrs, promoteStoredChild]
    · simp [expandNode, h1, h2, h3, hs]
    · simp [expandNode, h1, h2, h3, hs, FlowNode.children]

/-- Witness for C2 (amended) at the concrete group `exGroup`. -/
theorem group_child_path_promotion_witness :
    (expandNode exGroup fetchErr).children.map FlowNode.path
      = [["P | X"], ["P | Y"]]
    ∧ expandNode exGroup fetchErr = expandNode exGroup (Except.ok exData)
    ∧ (expandNode exGroup fetchErr).children.length = 2 := by
  have h := group_child_path_promotion exGroup
    [{ node_name := "P | X", name := "X", count := 7, percentage := 70,
       avgDuration := 1 },
     { node_name := "P | Y", name := "Y", count := 3, percentage := 30,
       avgDuration := 1 }]
    fetchErr fetchErr (Except.ok exData) rfl rfl rfl rfl
  exact ⟨h.1, h.2.1, h.2.2⟩

/-! ### Small lemma kit for `expandNode` -/

@[simp] theorem attrs_mk (a : NodeAttrs) (cs : List FlowNode) :
    (FlowNode.mk a cs).attrs = a := rfl

@[simp] theorem children_mk (a : NodeAttrs) (cs : List FlowNode) :
    (FlowNode.mk a cs).children = cs := rfl

/-- The children produced by a successful fetch expansion: the termination
child (when `terminations.count > 0`) followed by the sorted next-step
children. -/
theorem expandNode_ok_children (a : NodeAttrs) (cs : List FlowNode)
    (data : NextStepsResponse)
    (h1 : a.isRoot = false) (h2 : a.isTermination = false)
    (h3 : (a.isGroup && a.storedChildren.isSome) = false) :
    (expandNode (FlowNode.mk a cs) (Except.ok data)).children
      = (match data.terminations with
         | some t => if 0 < t.count then [mkTermChild a.path t] else []
         | none => []) ++
        (groupChildrenByProcess StepEntry.count data.next_steps).map
          (mkStepChild a.path) := by
  simp [expandNode, h1, h2, h3]

theorem mkTermChild_isTermination (p : List String) (t : TermStats) :
    (mkTermChild p t).isTermination = true := rfl

theorem mkTermChild_path (p : List String) (t : TermStats) :
    (mkTermChild p t).path = p ++ ["END"] := rfl

theorem mkTermChild_count (p : List String) (t : TermStats) :
    (mkTermChild p t).count = t.count := rfl

theorem mkStepChild_isTermination (p : List String) (s : StepEntry) :
    (mkStepChild p s).isTermination = false := by
  simp only [mkStepChild]
  split <;> rfl

/-! ### C6 — termination child creation -/

/-- C6.  For a node expanded through the next-steps fetch, a termination
child exists among the produced children exactly when the response's
`terminations.count > 0`, and any termination child carries
`path = node.path ++ ["END"]` and `count = terminations.count`. -/
theorem termination_child_iff_positive_count
    (n m c : FlowNode) (dataA dataB : NextStepsResponse) (tA tB : TermStats)
    (hn1 : n.isRoot = false) (hn2 : n.isTermination = false)
    (hn3 : (n.isGroup && n.storedChildren.isSome) = false)
    (hm1 : m.isRoot = false) (hm2 : m.isTermination = false)
    (hm3 : (m.isGroup && m.storedChildren.isSome) = false)
    (hta : dataA.terminations = some tA) (htb : dataB.terminations = some tB)
    (hc : c ∈ (expandNode m (Except.ok dataB)).children)
    (hct : c.isTermination = true) :
    ((∃ c' ∈ (expandNode n (Except.ok dataA)).children,
        c'.isTermination = true) ↔ 0 < tA.count)
    ∧ c.path = m.path ++ ["END"] ∧ c.count = tB.count := by
  cases n with
  | mk a as =>
    cases m with
    | mk b bs =>
      simp only [FlowNode.isRoot, FlowNode.isTermination, FlowNode.isGroup,
        FlowNode.storedChildren, attrs_mk] at hn1 hn2 hn3 hm1 hm2 hm3
      rw [expandNode_ok_children a as dataA hn1 hn2 hn3, hta] at *
      rw [expandNode_ok_children b bs dataB hm1 hm2 hm3, htb] at hc
      constructor
      · constructor
        · rintro ⟨c', hc', hct'⟩
          rcases List.mem_append.mp hc' with hl | hr
          · by_contra hzero
            simp [hzero] at hl
          · obtain ⟨s, _, hcs⟩ := List.mem_map.mp hr
            rw [← hcs] at hct'
            rw [mkStepChild_isTermination] at hct'
            exact absurd hct' Bool.false_ne_true
        · intro hpos
          refine ⟨mkTermChild a.path tA, ?_, mkTermChild_isTermination _ _⟩
          apply List.mem_append.mpr
          left
          simp [hpos]
      · rcases List.mem_append.mp hc with hl | hr
        · by_cases hpos : 0 < tB.count
          · simp only [hpos, if_true, List.mem_singleton] at hl
            subst hl
            exact ⟨mkTermChild_path _ _, mkTermChild_count _ _⟩
          · simp [hpos] at hl
        · obtain ⟨s, _, hcs⟩ := List.mem_map.mp hr
          rw [← hcs, mkStepChild_isTermination] at hct
          exact absurd hct Bool.false_ne_true

/-- Witness for C6: expanding `exNode` with `exData`
(`terminations.count = 12 > 0`) produces the termination child with
path `["A", "END"]` and count 12. -/
theorem termination_child_iff_positive_count_witness :
    ((∃ c' ∈ (expandNode exNode (Except.ok exData)).children,
        c'.isTermination = true) ↔ 0 < (12 : Nat))
    ∧ (mkTermChild ["A"] { count := 12, percentage := 20 }).path
        = FlowNode.path exNode ++ ["END"]
    ∧ (mkTermChild ["A"] { count := 12, percentage := 20 }).count = 12 :=
  termination_child_iff_positive_count exNode exNode
    (mkTermChild ["A"] { count := 12, percentage := 20 })
    exData exData { count := 12, percentage := 20 } { count := 12, percentage := 20 }
    rfl rfl rfl rfl rfl rfl rfl rfl
    (by exact List.mem_append.mpr (Or.inl (List.mem_singleton.mpr rfl)))
    rfl

/-- `promoteStoredChild` reads only the parent's `isStarting` flag and
`path`. -/
theorem promoteStoredChild_congr (p q : NodeAttrs) (c : StoredChild)
    (hs : p.isStarting = q.isStarting) (hp : p.path = q.path) :
    promoteStoredChild p c = promoteStoredChild q c := by
  simp [promoteStoredChild, hs, hp]

/-! ### C4 — expand / collapse / expand round trip -/

/-- C4.  For an expandable node, Expand followed by Collapse followed by
Expand with the same backend response reproduces the first expansion's
children exactly (hence same ids and counts); Collapse never discards a
group's `storedChildren`; and a group node's re-expansion uses the cached
`storedChildren` without consulting any fetch result (`g` quantifies over
group nodes, with arbitrary fetch results `r1`, `r2` on the two
expansions). -/
theorem expand_collapse_expand_roundtrip (n g : FlowNode)
    (data : NextStepsResponse) (r0 r1 r2 : Except String NextStepsResponse)
    (h1 : n.isRoot = false) (h2 : n.isTermination = false)
    (h3 : g.isRoot = false) (h4 : g.isTermination = false)
    (h5 : g.isGroup = true) (h6 : g.storedChildren.isSome = true) :
    (expandNode (collapseNode (expandNode n (Except.ok data)))
        (Except.ok data)).children
      = (expandNode n (Except.ok data)).children
    ∧ (collapseNode (expandNode n r0)).storedChildren = n.storedChildren
    ∧ (expandNode (collapseNode (expandNode g r1)) r2).children
      = (expandNode g r1).children := by
  cases n with
  | mk a as =>
    cases g with
    | mk b bs =>
      simp only [FlowNode.isRoot, FlowNode.isTermination, FlowNode.isGroup,
        FlowNode.storedChildren, attrs_mk] at h1 h2 h3 h4 h5 h6
      refine ⟨?_, ?_, ?_⟩
      · by_cases hg : (a.isGroup && a.storedChildren.isSome) = true
        · simp only [expandNode, collapseNode, h1, h2, hg, attrs_mk,
            Bool.or_self, Bool.or_false, Bool.false_or, if_false, if_true]
          simp [h1, h2, hg]
          intro c _
          exact promoteStoredChild_congr _ _ _ rfl rfl
        · simp only [Bool.not_eq_true] at hg
          simp [expandNode, collapseNode, h1, h2, hg]
      · cases r0 with
        | error e =>
          by_cases hg : (a.isGroup && a.storedChildren.isSome) = true
          · simp [expandNode, collapseNode, h1, h2, hg, FlowNode.storedChildren]
          · simp only [Bool.not_eq_true] at hg
            simp [expandNode, collapseNode, h1, h2, hg, FlowNode.storedChildren]
        | ok d =>
          by_cases hg : (a.isGroup && a.storedChildren.isSome) = true
          · simp [expandNode, collapseNode, h1, h2, hg, FlowNode.storedChildren]
          · simp only [Bool.not_eq_true] at hg
            simp [expandNode, collapseNode, h1, h2, hg, FlowNode.storedChildren]
      · have hg : (b.isGroup && b.storedChildren.isSome) = true := by
          simp [h5, h6]
        simp [expandNode, collapseNode, h3, h4, hg]
        intro c _
        exact promoteStoredChild_congr _ _ _ rfl rfl

/-- Witness for C4 at the concrete ordinary node `exNode` and group
`exGroup`, with the response `exData`. -/
theorem expand_collapse_expand_roundtrip_witness :
    (expandNode (collapseNode (expandNode exNode (Except.ok exData)))
        (Except.ok exData)).children
      = (expandNode exNode (Except.ok exData)).children
    ∧ (collapseNode (expandNode exNode fetchErr)).storedChildren
      = exNode.storedChildren
    ∧ (expandNode (collapseNode (expandNode exGroup fetchErr))
        (Except.ok exData)).children
      = (expandNode exGroup fetchErr).children :=
  expand_collapse_expand_roundtrip exNode exGroup exData fetchErr fetchErr
    (Except.ok exData) rfl rfl rfl rfl rfl rfl

/-! ### C7 — node-identity determinism and duplicate suppression -/

/-- Every non-group child produced by `expandNode` (promoted group child,
termination child, or single next-step child) carries the path-derived id
`computeChildId path`. -/
theorem expand_child_id_from_path (n c : FlowNode) (data : NextStepsResponse)
    (h1 : n.isRoot = false) (h2 : n.isTermination = false)
    (hc : c ∈ (expandNode n (Except.ok data)).children)
    (hg : c.isGroup = false) :
    c.id = computeChildId c.path := by
  cases n with
  | mk a cs =>
    simp only [FlowNode.isRoot, FlowNode.isTermination, attrs_mk] at h1 h2
    by_cases hgr : (a.isGroup && a.storedChildren.isSome) = true
    · rw [show (expandNode (FlowNode.mk a cs) (Except.ok data)).children
          = (a.storedChildren.getD []).map (promoteStoredChild a) by
        simp [expandNode, h1, h2, hgr]] at hc
      obtain ⟨sc, _, rfl⟩ := List.mem_map.mp hc
      rfl
    · simp only [Bool.not_eq_true] at hgr
      rw [expandNode_ok_children a cs data h1 h2 hgr] at hc
      rcases List.mem_append.mp hc with hl | hr
      · cases hterm : data.terminations with
        | none => rw [hterm] at hl; simp at hl
        | some t =>
          rw [hterm] at hl
          by_cases hpos : 0 < t.count
          · simp only [hpos, if_true, List.mem_singleton] at hl
            subst hl
            rfl
          · simp [hpos] at hl
      · obtain ⟨s, _, rfl⟩ := List.mem_map.mp hr
        by_cases hsg : s.isGroup = true
        · exfalso
          rw [show (mkStepChild a.path s).isGroup = true by
            simp [mkStepChild, hsg, FlowNode.isGroup]] at hg
          exact Bool.noConfusion hg
        · simp only [Bool.not_eq_true] at hsg
          simp [mkStepChild, hsg, FlowNode.id, FlowNode.path]

/-- `addStepChild` never introduces a duplicate node id: a child whose id is
already present is skipped. -/
theorem addStepChild_nodup (p : GNode) (st : GState) (s : ProcStep)
    (h : (idsG st).Nodup) : (idsG (addStepChild p st s)).Nodup := by
  simp only [addStepChild]
  split
  · exact h
  · rename_i hex
    simp only [idsG, List.map_append, List.map_cons, List.map_nil]
    refine List.Nodup.append h (List.nodup_singleton _) ?_
    intro x hx hx2
    simp only [List.mem_singleton] at hx2
    subst hx2
    obtain ⟨m, hm, hmid⟩ := List.mem_map.mp hx
    exact hex (List.any_eq_true.mpr ⟨m, hm, by simp [hmid]⟩)

/-- Folding `addStepChild` over the fetched steps preserves id
uniqueness. -/
theorem foldl_addStepChild_nodup (p : GNode) (steps : List ProcStep) :
    ∀ st : GState, (idsG st).Nodup →
      (idsG (steps.foldl (addStepChild p) st)).Nodup := by
  induction steps with
  | nil => intro st h; exact h
  | cons s rest ih =>
    intro st h
    exact ih (addStepChild p st s) (addStepChild_nodup p st s h)

/-- `addTermChild` never introduces a duplicate node id. -/
theorem addTermChild_nodup (p : GNode) (st : GState) (r : FlowResponseG)
    (h : (idsG st).Nodup) : (idsG (addTermChild p st r)).Nodup := by
  simp only [addTermChild]
  split
  · exact h
  · split
    · split
      · exact h
      · rename_i hex
        simp only [idsG, List.map_append, List.map_cons, List.map_nil]
        refine List.Nodup.append h (List.nodup_singleton _) ?_
        intro x hx hx2
        simp only [List.mem_singleton] at hx2
        subst hx2
        obtain ⟨m, hm, hmid⟩ := List.mem_map.mp hx
        exact hex (List.any_eq_true.mpr ⟨m, hm, by simp [hmid]⟩)
    · exact h

/-- `collapseNodeG` only filters the node list, so id uniqueness is
preserved. -/
theorem collapseNodeG_nodup (fuel : Nat) (st : GState) (nid : String)
    (h : (idsG st).Nodup) : (idsG (collapseNodeG fuel st nid)).Nodup := by
  simp only [collapseNodeG, idsG]
  exact h.sublist (List.Sublist.map GNode.id (List.filter_sublist _))

/-- C7.  The activity-tree child id is a deterministic function of the path
(`computeChildId`), so equal inputs give equal ids and any two non-group
children constructed by (possibly different) expansions with equal `path`
sequences carry the same id; and in the flat graph variant an expansion
never creates a second node with an already-present id (id uniqueness of the
node set is preserved). -/
theorem child_id_deterministic_and_unique (pth : List String)
    (n1 n2 c1 c2 : FlowNode) (d1 d2 : NextStepsResponse)
    (st : GState) (fuel : Nat) (gn : GNode) (gr : FlowResponseG)
    (ha1 : n1.isRoot = false) (ha2 : n1.isTermination = false)
    (hb1 : n2.isRoot = false) (hb2 : n2.isTermination = false)
    (hc1 : c1 ∈ (expandNode n1 (Except.ok d1)).children)
    (hc2 : c2 ∈ (expandNode n2 (Except.ok d2)).children)
    (hg1 : c1.isGroup = false) (hg2 : c2.isGroup = false)
    (hpp : c1.path = c2.path)
    (hnd : (idsG st).Nodup) :
    computeChildId pth = computeChildId pth
    ∧ c1.id = c2.id
    ∧ (idsG (expandNodeG fuel st gn gr)).Nodup := by
  refine ⟨rfl, ?_, ?_⟩
  · rw [expand_child_id_from_path n1 c1 d1 ha1 ha2 hc1 hg1,
      expand_child_id_from_path n2 c2 d2 hb1 hb2 hc2 hg2, hpp]
  · simp only [expandNodeG]
    split
    · exact hnd
    · split
      · exact collapseNodeG_nodup fuel st gn.id hnd
      · exact addTermChild_nodup gn _ gr
          (foldl_addStepChild_nodup gn gr.next_steps st hnd)

/-- A starting node of the flat graph variant. -/
def exGNode : GNode :=
  { id := "start_P", name := "P", count := 5, percentage := 100, depth := 0,
    path := ["P"], parentId := none, isStarting := true, isTermination := false }

/-- A flat-graph state holding only the starting node. -/
def exGState : GState :=
  { nodes := [exGNode], links := [] }

/-- A process-flow response with one next step and a termination bucket. -/
def exGResp : FlowResponseG :=
  { next_steps := [{ process := "Q", count := 3, percentage := 60 }]
    terminations := some { count := 2, percentage := 40 } }

/-- Witness for C7 at the termination child of `exNode`/`exData` and the
flat-graph expansion of `exGState`. -/
theorem child_id_deterministic_and_unique_witness :
    computeChildId ["A"] = computeChildId ["A"]
    ∧ (mkTermChild ["A"] { count := 12, percentage := 20 }).id
      = (mkTermChild ["A"] { count := 12, percentage := 20 }).id
    ∧ (idsG (expandNodeG 3 exGState exGNode exGResp)).Nodup :=
  child_id_deterministic_and_unique ["A"] exNode exNode
    (mkTermChild ["A"] { count := 12, percentage := 20 })
    (mkTermChild ["A"] { count := 12, percentage := 20 })
    exData exData exGState 3 exGNode exGResp
    rfl rfl rfl rfl
    (List.mem_append.mpr (Or.inl (List.mem_singleton.mpr rfl)))
    (List.mem_append.mpr (Or.inl (List.mem_singleton.mpr rfl)))
    rfl rfl rfl (by decide)

/-! ### Sortedness of the stable count-descending sort (for C9) -/

theorem mem_insertByCountDesc (count : α → Nat) (x z : α) :
    ∀ l : List α, z ∈ insertByCountDesc count x l → z = x ∨ z ∈ l := by
  intro l
  induction l with
  | nil =>
    intro h
    simp [insertByCountDesc] at h
    exact Or.inl h
  | cons y ys ih =>
    intro h
    simp only [insertByCountDesc] at h
    split at h
    · rcases List.mem_cons.mp h with h1 | h2
      · exact Or.inl h1
      · exact Or.inr h2
    · rcases List.mem_cons.mp h with h1 | h2
      · exact Or.inr (h1 ▸ List.mem_cons_self y ys)
      · rcases ih h2 with h3 | h4
        · exact Or.inl h3
        · exact Or.inr (List.mem_cons_of_mem y h4)

theorem pairwise_insertByCountDesc (count : α → Nat) (x : α) :
    ∀ l : List α,
      List.Pairwise (fun a b => count b ≤ count a) l →
      List.Pairwise (fun a b => count b ≤ count a)
        (insertByCountDesc count x l) := by
  intro l
  induction l with
  | nil =>
    intro _
    simp [insertByCountDesc]
  | cons y ys ih =>
    intro h
    rcases List.pairwise_cons.mp h with ⟨hy, hys⟩
    simp only [insertByCountDesc]
    split
    · rename_i hle
      refine List.pairwise_cons.mpr ⟨?_, h⟩
      intro z hz
      rcases List.mem_cons.mp hz with h1 | h2
      · exact h1 ▸ hle
      · exact le_trans (hy z h2) hle
    · rename_i hgt
      have hxy : count x ≤ count y := le_of_lt (Nat.lt_of_not_le hgt)
      refine List.pairwise_cons.mpr ⟨?_, ih hys⟩
      intro z hz
      rcases mem_insertByCountDesc count x z ys hz with h1 | h2
      · exact h1 ▸ hxy
      · exact hy z h2

theorem pairwise_sortByCountDesc (count : α → Nat) :
    ∀ l : List α,
      List.Pairwise (fun a b => count b ≤ count a)
        (sortByCountDesc count l) := by
  intro l
  induction l with
  | nil => simp [sortByCountDesc]
  | cons x xs ih =>
    exact pairwise_insertByCountDesc count x _ ih

theorem length_insertByCountDesc (count : α → Nat) (x : α) :
    ∀ l : List α, (insertByCountDesc count x l).length = l.length + 1 := by
  intro l
  induction l with
  | nil => rfl
  | cons y ys ih =>
    simp only [insertByCountDesc]
    split
    · rfl
    · simp [ih]

theorem length_sortByCountDesc (count : α → Nat) :
    ∀ l : List α, (sortByCountDesc count l).length = l.length := by
  intro l
  induction l with
  | nil => rfl
  | cons x xs ih =>
    simp [sortByCountDesc, length_insertByCountDesc, ih]

theorem mkStartingNode_count (e : StartingEntry) :
    (mkStartingNode e).count = e.count := by
  simp only [mkStartingNode]
  split <;> rfl

/-! ### C9 — buildRoot postcondition -/

/-- The concrete scenario response of the claim. -/
def scenarioResp : StartingProcessesResponse :=
  { total_claims := some 100
    starting_processes :=
      [{ process := "A", count := 60, percentage := 60, avg_duration := 0 },
       { process := "B", count := 40, percentage := 40, avg_duration := 0 }] }

/-- The same response with the two entries in the opposite (unsorted)
order. -/
def unsortedResp : StartingProcessesResponse :=
  { total_claims := some 100
    starting_processes :=
      [{ process := "B", count := 40, percentage := 40, avg_duration := 0 },
       { process := "A", count := 60, percentage := 60, avg_duration := 0 }] }

/-- C9, counterexample to the claim as stated: part_002's
`loadAllStartingProcesses` keeps the backend order of `starting_processes`,
so on a response listing B (40) before A (60) the root's children are not
sorted by descending count. -/
theorem buildRootP_sorted_claim_cex :
    ¬ List.Pairwise (fun c1 c2 => FlowNode.count c2 ≤ FlowNode.count c1)
      ((buildRootP unsortedResp).children) := by
  intro h
  have h40 : (40 : Nat) < 60 := by decide
  have := (List.pairwise_cons.mp h).1
  have h2 := this (mkStartingNodeP
    { process := "A", count := 60, percentage := 60, avg_duration := 0 })
    (by exact List.mem_cons_self _ _)
  exact absurd h2 (by decide)

/-- C9, amended.  On the scenario response the root has `count = 100` and
children `node_A` (60) then `node_B` (40); in general part_002's root
children are one per starting entry *in backend order*, while the
activity-level `loadAllStartingProcesses` (activity_tree.js) sorts its
starting children by descending count. -/
theorem buildRoot_scenario_and_order (resp : StartingProcessesResponse)
    (resp2 : StartingResponse) :
    (buildRootP scenarioResp).count = 100
    ∧ (buildRootP scenarioResp).children.map FlowNode.id
        = ["node_A", "node_B"]
    ∧ (buildRootP scenarioResp).children.map FlowNode.count = [60, 40]
    ∧ (buildRootP resp).children.map FlowNode.id
        = resp.starting_processes.map (fun sp => "node_" ++ sp.process)
    ∧ (buildTree resp2).children.length = resp2.starting_nodes.length
    ∧ List.Pairwise (fun c1 c2 => FlowNode.count c2 ≤ FlowNode.count c1)
        ((buildTree resp2).children) := by
  refine ⟨rfl, rfl, rfl, ?_, ?_, ?_⟩
  · simp only [buildRootP, children_mk, List.map_map]
    rfl
  · simp [buildTree, groupChildrenByProcess, length_sortByCountDesc]
  · simp only [buildTree, children_mk]
    rw [List.pairwise_map]
    refine List.Pairwise.imp ?_
      (pairwise_sortByCountDesc StartingEntry.count resp2.starting_nodes)
    intro e1 e2 hle
    rw [mkStartingNode_count, mkStartingNode_count]
    exact hle

/-! ### C10 — collapse frame effect -/

mutual

/-- Every attribute record present after `collapseAt` either belongs to the
collapsed target or was already present before. -/
theorem collapseAt_attrs_sub (tid : String) :
    ∀ t : FlowNode, ∀ a ∈ attrsList (collapseAt tid t),
      a.id = tid ∨ a ∈ attrsList t
  | FlowNode.mk b cs => by
    intro a ha
    by_cases hb : b.id = tid
    · rw [show collapseAt tid (FlowNode.mk b cs)
          = collapseNode (FlowNode.mk b cs) by simp [collapseAt, hb]] at ha
      simp only [collapseNode, attrsList, attrsListList] at ha
      rcases List.mem_singleton.mp (by simpa using ha) with h
      subst h
      exact Or.inl hb
    · rw [show collapseAt tid (FlowNode.mk b cs)
          = FlowNode.mk b (collapseAtList tid cs) by simp [collapseAt, hb]] at ha
      simp only [attrsList] at ha
      rcases List.mem_cons.mp ha with h1 | h2
      · exact Or.inr (h1 ▸ List.mem_cons_self _ _)
      · rcases collapseAtList_attrs_sub tid cs a h2 with h3 | h4
        · exact Or.inl h3
        · exact Or.inr (List.mem_cons_of_mem _ h4)

theorem collapseAtList_attrs_sub (tid : String) :
    ∀ l : List FlowNode, ∀ a ∈ attrsListList (collapseAtList tid l),
      a.id = tid ∨ a ∈ attrsListList l
  | [] => by intro a ha; simp [collapseAtList, attrsListList] at ha
  | c :: cs => by
    intro a ha
    simp only [collapseAtList, attrsListList] at ha
    rcases List.mem_append.mp ha with h1 | h2
    · rcases collapseAt_attrs_sub tid c a h1 with h3 | h4
      · exact Or.inl h3
      · exact Or.inr (List.mem_append.mpr (Or.inl h4))
    · rcases collapseAtList_attrs_sub tid cs a h2 with h3 | h4
      · exact Or.inl h3
      · exact Or.inr (List.mem_append.mpr (Or.inr h4))

end

mutual

/-- Every attribute record present before `collapseAt` either lies strictly
below the target, is the target itself, or survives unchanged. -/
theorem collapseAt_attrs_frame (tid : String) :
    ∀ t : FlowNode, ∀ a ∈ attrsList t,
      a ∈ strictDescAttrs tid t ∨ a.id = tid
        ∨ a ∈ attrsList (collapseAt tid t)
  | FlowNode.mk b cs => by
    intro a ha
    simp only [attrsList] at ha
    by_cases hb : b.id = tid
    · rcases List.mem_cons.mp ha with h1 | h2
      · exact Or.inr (Or.inl (h1 ▸ hb))
      · rw [show strictDescAttrs tid (FlowNode.mk b cs) = attrsListList cs by
          simp [strictDescAttrs, hb]]
        exact Or.inl h2
    · rw [show strictDescAttrs tid (FlowNode.mk b cs)
          = strictDescAttrsList tid cs by simp [strictDescAttrs, hb]]
      rw [show collapseAt tid (FlowNode.mk b cs)
          = FlowNode.mk b (collapseAtList tid cs) by simp [collapseAt, hb]]
      simp only [attrsList]
      rcases List.mem_cons.mp ha with h1 | h2
      · exact Or.inr (Or.inr (h1 ▸ List.mem_cons_self _ _))
      · rcases collapseAtList_attrs_frame tid cs a h2 with h3 | h4 | h5
        · exact Or.inl h3
        · exact Or.inr (Or.inl h4)
        · exact Or.inr (Or.inr (List.mem_cons_of_mem _ h5))

theorem collapseAtList_attrs_frame (tid : String) :
    ∀ l : List FlowNode, ∀ a ∈ attrsListList l,
      a ∈ strictDescAttrsList tid l ∨ a.id = tid
        ∨ a ∈ attrsListList (collapseAtList tid l)
  | [] => by intro a ha; simp [attrsListList] at ha
  | c :: cs => by
    intro a ha
    simp only [attrsListList, strictDescAttrsList, collapseAtList] at *
    rcases List.mem_append.mp ha with h1 | h2
    · rcases collapseAt_attrs_frame tid c a h1 with h3 | h4 | h5
      · exact Or.inl (List.mem_append.mpr (Or.inl h3))
      · exact Or.inr (Or.inl h4)
      · exact Or.inr (Or.inr (List.mem_append.mpr (Or.inl h5)))
    · rcases collapseAtList_attrs_frame tid cs a h2 with h3 | h4 | h5
      · exact Or.inl (List.mem_append.mpr (Or.inr h3))
      · exact Or.inr (Or.inl h4)
      · exact Or.inr (Or.inr (List.mem_append.mpr (Or.inr h5)))

end

/-- C10.  `collapseNode` changes only `children` (emptied) and `expanded`
(cleared): id, name, node_name, count, percentage, avgDuration, path,
storedChildren, hasChildren and the pinned `fx`/`fy` coordinates keep their
prior values.  At tree level, a surviving non-target node's attributes were
already present before the collapse, and every node that is neither the
target nor strictly below it survives the collapse with its attributes
unchanged. -/
theorem collapse_frame_effect (n s : FlowNode) (tid : String)
    (a b : NodeAttrs)
    (ha : a ∈ attrsList (collapseAt tid s)) (hane : a.id ≠ tid)
    (hb : b ∈ attrsList s) (hbne : b.id ≠ tid)
    (hbd : b ∉ strictDescAttrs tid s) :
    (collapseNode n).id = n.id
    ∧ (collapseNode n).name = n.name
    ∧ (collapseNode n).node_name = n.node_name
    ∧ (collapseNode n).count = n.count
    ∧ (collapseNode n).percentage = n.percentage
    ∧ (collapseNode n).avgDuration = n.avgDuration
    ∧ (collapseNode n).path = n.path
    ∧ (collapseNode n).storedChildren = n.storedChildren
    ∧ (collapseNode n).hasChildren = n.hasChildren
    ∧ (collapseNode n).attrs.fx = n.attrs.fx
    ∧ (collapseNode n).attrs.fy = n.attrs.fy
    ∧ (collapseNode n).children = []
    ∧ (collapseNode n).expanded = false
    ∧ a ∈ attrsList s
    ∧ b ∈ attrsList (collapseAt tid s) := by
  cases n with
  | mk na ncs =>
    refine ⟨rfl, rfl, rfl, rfl, rfl, rfl, rfl, rfl, rfl, rfl, rfl, rfl, rfl,
      ?_, ?_⟩
    · rcases collapseAt_attrs_sub tid s a ha with h1 | h2
      · exact absurd h1 hane
      · exact h2
    · rcases collapseAt_attrs_frame tid s b hb with h1 | h2 | h3
      · exact absurd h1 hbd
      · exact absurd h2 hbne
      · exact h3

/-- Attributes of a small concrete leaf node under "A". -/
def exLeafAttrs : NodeAttrs :=
  { id := "node_A;;C", name := "C", node_name := "C", count := 48,
    percentage := 80, avgDuration := 5, path := ["A", "C"],
    storedChildren := none, hasChildren := true, isGroup := false,
    isStarting := false, isRoot := false, isTermination := false,
    expanded := false, activity_count := 0, fx := none, fy := none }

/-- Attributes of the concrete middle node "A". -/
def exMidAttrs : NodeAttrs :=
  { id := "node_A", name := "A", node_name := "A", count := 60,
    percentage := 60, avgDuration := 0, path := ["A"],
    storedChildren := none, hasChildren := true, isGroup := false,
    isStarting := true, isRoot := false, isTermination := false,
    expanded := true, activity_count := 0, fx := none, fy := none }

/-- Attributes of the concrete START root. -/
def exRootAttrs : NodeAttrs :=
  { id := "root_start", name := "START", node_name := "", count := 100,
    percentage := 100, avgDuration := 0, path := [],
    storedChildren := none, hasChildren := false, isGroup := false,
    isStarting := false, isRoot := true, isTermination := false,
    expanded := true, activity_count := 0, fx := none, fy := none }

/-- A concrete three-level tree: root → "A" → "C". -/
def exTree : FlowNode :=
  FlowNode.mk exRootAttrs [FlowNode.mk exMidAttrs [FlowNode.mk exLeafAttrs []]]

/-- Witness for C10: collapsing "A" inside `exTree` keeps the root's
attributes (which are outside the collapsed subtree). -/
theorem collapse_frame_effect_witness :
    (collapseNode exNode).id = exNode.id
    ∧ (collapseNode exNode).name = exNode.name
    ∧ (collapseNode exNode).node_name = exNode.node_name
    ∧ (collapseNode exNode).count = exNode.count
    ∧ (collapseNode exNode).percentage = exNode.percentage
    ∧ (collapseNode exNode).avgDuration = exNode.avgDuration
    ∧ (collapseNode exNode).path = exNode.path
    ∧ (collapseNode exNode).storedChildren = exNode.storedChildren
    ∧ (collapseNode exNode).hasChildren = exNode.hasChildren
    ∧ (collapseNode exNode).attrs.fx = exNode.attrs.fx
    ∧ (collapseNode exNode).attrs.fy = exNode.attrs.fy
    ∧ (collapseNode exNode).children = []
    ∧ (collapseNode exNode).expanded = false
    ∧ exRootAttrs ∈ attrsList exTree
    ∧ exRootAttrs ∈ attrsList (collapseAt "node_A" exTree) :=
  collapse_frame_effect exNode exTree "node_A" exRootAttrs exRootAttrs
    (by decide) (by decide) (by decide) (by decide) (by decide)

/-! ### C5 — root uniqueness and inertness -/

theorem bandTrue {a b : Bool} : (a && b) = true ↔ a = true ∧ b = true := by
  constructor
  · intro h
    exact ⟨Bool.and_elim_left h, Bool.and_elim_right h⟩
  · intro h
    simp [h.1, h.2]

theorem noRootAllList_append (l1 l2 : List FlowNode) :
    noRootAllList (l1 ++ l2) = (noRootAllList l1 && noRootAllList l2) := by
  induction l1 with
  | nil => simp [noRootAllList]
  | cons c cs ih => simp [noRootAllList, ih, Bool.and_assoc]

theorem noRootAllList_of_forall :
    ∀ l : List FlowNode, (∀ c ∈ l, noRootAll c = true) →
      noRootAllList l = true := by
  intro l
  induction l with
  | nil => intro _; rfl
  | cons c cs ih =>
    intro h
    simp only [noRootAllList, Bool.and_eq_true]
    exact ⟨h c (List.mem_cons_self _ _),
      ih (fun d hd => h d (List.mem_cons_of_mem _ hd))⟩

theorem noRootAll_promoteStoredChild (a : NodeAttrs) (c : StoredChild) :
    noRootAll (promoteStoredChild a c) = true := rfl

theorem noRootAll_mkTermChild (p : List String) (t : TermStats) :
    noRootAll (mkTermChild p t) = true := rfl

theorem noRootAll_mkStepChild (p : List String) (s : StepEntry) :
    noRootAll (mkStepChild p s) = true := by
  simp only [mkStepChild]
  split <;> rfl

theorem noRootAll_mkStartingNode (e : StartingEntry) :
    noRootAll (mkStartingNode e) = true := by
  simp only [mkStartingNode]
  split <;> rfl

/-- `expandNode` never flags a new root: the node's own `isRoot` is
untouched and every freshly created child has `isRoot = false`. -/
theorem expandNode_noRootAll (a : NodeAttrs) (cs : List FlowNode)
    (r : Except String NextStepsResponse)
    (h : noRootAll (FlowNode.mk a cs) = true) :
    noRootAll (expandNode (FlowNode.mk a cs) r) = true := by
  have hr : (!a.isRoot) = true := (bandTrue.mp h).1
  have hcs : noRootAllList cs = true := (bandTrue.mp h).2
  by_cases h1 : (a.isTermination || a.isRoot) = true
  · simpa [expandNode, h1] using h
  · by_cases h2 : (a.isGroup && a.storedChildren.isSome) = true
    · simp only [expandNode, h1, h2, if_true, if_false, Bool.false_eq_true,
        noRootAll]
      refine bandTrue.mpr ⟨by simpa using hr, ?_⟩
      apply noRootAllList_of_forall
      intro c hc
      obtain ⟨sc, _, rfl⟩ := List.mem_map.mp hc
      exact noRootAll_promoteStoredChild _ _
    · cases r with
      | error e => simpa [expandNode, h1, h2] using h
      | ok data =>
        simp only [expandNode, h1, h2, if_false, Bool.false_eq_true,
          noRootAll]
        refine bandTrue.mpr ⟨by simpa using hr, ?_⟩
        rw [noRootAllList_append]
        refine bandTrue.mpr ⟨?_, ?_⟩
        · apply noRootAllList_of_forall
          intro c hc
          cases hterm : data.terminations with
          | none => rw [hterm] at hc; simp at hc
          | some t =>
            rw [hterm] at hc
            by_cases hpos : 0 < t.count
            · simp only [hpos, if_true, List.mem_singleton] at hc
              exact hc ▸ noRootAll_mkTermChild _ _
            · simp [hpos] at hc
        · apply noRootAllList_of_forall
          intro c hc
          obtain ⟨s, _, rfl⟩ := List.mem_map.mp hc
          exact noRootAll_mkStepChild _ _

mutual

theorem expandAt_noRootAll (tid : String)
    (r : Except String NextStepsResponse) :
    ∀ t : FlowNode, noRootAll t = true →
      noRootAll (expandAt tid r t) = true
  | FlowNode.mk a cs => by
    intro h
    by_cases hid : a.id = tid
    · rw [show expandAt tid r (FlowNode.mk a cs)
          = expandNode (FlowNode.mk a cs) r by simp [expandAt, hid]]
      exact expandNode_noRootAll a cs r h
    · rw [show expandAt tid r (FlowNode.mk a cs)
          = FlowNode.mk a (expandAtList tid r cs) by simp [expandAt, hid]]
      simp only [noRootAll, Bool.and_eq_true] at h ⊢
      exact ⟨h.1, expandAtList_noRootAll tid r cs h.2⟩

theorem expandAtList_noRootAll (tid : String)
    (r : Except String NextStepsResponse) :
    ∀ l : List FlowNode, noRootAllList l = true →
      noRootAllList (expandAtList tid r l) = true
  | [] => by intro _; rfl
  | c :: cs => by
    intro h
    simp only [expandAtList, noRootAllList, Bool.and_eq_true] at h ⊢
    exact ⟨expandAt_noRootAll tid r c h.1, expandAtList_noRootAll tid r cs h.2⟩

end

mutual

theorem collapseAt_noRootAll (tid : String) :
    ∀ t : FlowNode, noRootAll t = true →
      noRootAll (collapseAt tid t) = true
  | FlowNode.mk a cs => by
    intro h
    have hr : (!a.isRoot) = true := (bandTrue.mp h).1
    by_cases hid : a.id = tid
    · rw [show collapseAt tid (FlowNode.mk a cs)
          = collapseNode (FlowNode.mk a cs) by simp [collapseAt, hid]]
      simp only [collapseNode, noRootAll, noRootAllList, Bool.and_eq_true]
      exact ⟨by simpa using hr, trivial⟩
    · rw [show collapseAt tid (FlowNode.mk a cs)
          = FlowNode.mk a (collapseAtList tid cs) by simp [collapseAt, hid]]
      simp only [noRootAll, Bool.and_eq_true] at h ⊢
      exact ⟨h.1, collapseAtList_noRootAll tid cs h.2⟩

theorem collapseAtList_noRootAll (tid : String) :
    ∀ l : List FlowNode, noRootAllList l = true →
      noRootAllList (collapseAtList tid l) = true
  | [] => by intro _; rfl
  | c :: cs => by
    intro h
    simp only [collapseAtList, noRootAllList, Bool.and_eq_true] at h ⊢
    exact ⟨collapseAt_noRootAll tid c h.1, collapseAtList_noRootAll tid cs h.2⟩

end

mutual

theorem countRoots_of_noRootAll :
    ∀ t : FlowNode, noRootAll t = true → countRoots t = 0
  | FlowNode.mk a cs => by
    intro h
    simp only [noRootAll, Bool.and_eq_true] at h
    have ha : a.isRoot = false := by simpa using h.1
    simp [countRoots, ha, countRootsList_of_noRootAllList cs h.2]

theorem countRootsList_of_noRootAllList :
    ∀ l : List FlowNode, noRootAllList l = true → countRootsList l = 0
  | [] => by intro _; rfl
  | c :: cs => by
    intro h
    simp only [noRootAllList, Bool.and_eq_true] at h
    simp [countRootsList, countRoots_of_noRootAll c h.1,
      countRootsList_of_noRootAllList cs h.2]

end

/-- A tree whose only root flag sits at the top has exactly one root. -/
theorem countRoots_of_rootOnlyAtTop (t : FlowNode)
    (h : rootOnlyAtTop t = true) : countRoots t = 1 := by
  cases t with
  | mk a cs =>
    simp only [rootOnlyAtTop, Bool.and_eq_true] at h
    simp [countRoots, h.1, countRootsList_of_noRootAllList cs h.2]

/-- `rootOnlyAtTop` is preserved by expansion at any id: expanding the root
itself is a no-op (the root guard), and expansion below the root never
creates a root-flagged node. -/
theorem expandAt_rootOnlyAtTop (tid : String)
    (r : Except String NextStepsResponse) (s : FlowNode)
    (hs : rootOnlyAtTop s = true) :
    rootOnlyAtTop (expandAt tid r s) = true := by
  cases s with
  | mk a cs =>
    simp only [rootOnlyAtTop, Bool.and_eq_true] at hs
    by_cases hid : a.id = tid
    · rw [show expandAt tid r (FlowNode.mk a cs)
          = expandNode (FlowNode.mk a cs) r by simp [expandAt, hid]]
      rw [show expandNode (FlowNode.mk a cs) r = FlowNode.mk a cs by
        simp [expandNode, hs.1]]
      simp [rootOnlyAtTop, hs.1, hs.2]
    · rw [show expandAt tid r (FlowNode.mk a cs)
          = FlowNode.mk a (expandAtList tid r cs) by simp [expandAt, hid]]
      simp [rootOnlyAtTop, hs.1, expandAtList_noRootAll tid r cs hs.2]

/-- `rootOnlyAtTop` is preserved by collapse at any id (collapsing the root
empties its children but keeps its root flag, and collapse below the root
only removes nodes). -/
theorem collapseAt_rootOnlyAtTop (tid : String) (s : FlowNode)
    (hs : rootOnlyAtTop s = true) :
    rootOnlyAtTop (collapseAt tid s) = true := by
  cases s with
  | mk a cs =>
    simp only [rootOnlyAtTop, Bool.and_eq_true] at hs
    by_cases hid : a.id = tid
    · rw [show collapseAt tid (FlowNode.mk a cs)
          = collapseNode (FlowNode.mk a cs) by simp [collapseAt, hid]]
      simp [collapseNode, rootOnlyAtTop, hs.1, noRootAllList]
    · rw [show collapseAt tid (FlowNode.mk a cs)
          = FlowNode.mk a (collapseAtList tid cs) by simp [collapseAt, hid]]
      simp [rootOnlyAtTop, hs.1, collapseAtList_noRootAll tid cs hs.2]

/-- C5, counterexample to the claim as stated: the raw `collapseNode` helper
has no root guard, so calling it directly on a root node clears the root's
children — it is not a no-op on the tree. -/
theorem root_collapse_alters_tree_cex :
    FlowNode.isRoot exTree = true ∧ collapseNode exTree ≠ exTree := by
  refine ⟨rfl, ?_⟩
  intro h
  have hc := congrArg FlowNode.children h
  simp [collapseNode, exTree, FlowNode.children] at hc

/-- C5, amended.  Every tree built by `loadAllStartingProcesses` has exactly
one node with `isRoot = true` (the synthetic START root), and this
uniqueness is preserved by Expand and Collapse applied at any node id;
`expandNode` on a root node is a no-op, and a click on the root is a no-op
(the click dispatcher guards the root); only the raw, internal
`collapseNode` helper — never invoked on the root by the dispatcher — would
clear the root's children. -/
theorem root_unique_and_guarded_inert (resp : StartingResponse)
    (s n : FlowNode) (tid : String)
    (r rq : Except String NextStepsResponse)
    (hs : rootOnlyAtTop s = true) (hn : n.isRoot = true) :
    countRoots (buildTree resp) = 1
    ∧ rootOnlyAtTop (buildTree resp) = true
    ∧ rootOnlyAtTop (expandAt tid r s) = true
    ∧ countRoots (expandAt tid r s) = 1
    ∧ rootOnlyAtTop (collapseAt tid s) = true
    ∧ countRoots (collapseAt tid s) = 1
    ∧ expandNode n rq = n
    ∧ clickNode n rq = n := by
  have hb : rootOnlyAtTop (buildTree resp) = true := by
    simp only [buildTree, rootOnlyAtTop, Bool.and_eq_true]
    refine ⟨trivial, ?_⟩
    apply noRootAllList_of_forall
    intro c hc
    obtain ⟨e, _, rfl⟩ := List.mem_map.mp hc
    exact noRootAll_mkStartingNode e
  refine ⟨countRoots_of_rootOnlyAtTop _ hb, hb,
    expandAt_rootOnlyAtTop tid r s hs,
    countRoots_of_rootOnlyAtTop _ (expandAt_rootOnlyAtTop tid r s hs),
    collapseAt_rootOnlyAtTop tid s hs,
    countRoots_of_rootOnlyAtTop _ (collapseAt_rootOnlyAtTop tid s hs),
    ?_, ?_⟩
  · cases n with
    | mk a cs =>
      simp only [FlowNode.isRoot, attrs_mk] at hn
      simp [expandNode, hn]
  · cases n with
    | mk a cs =>
      simp only [FlowNode.isRoot, attrs_mk] at hn
      simp [clickNode, hn]

/-- Witness for C5 (amended) at the concrete snapshot `exTree` and the
concrete root-flagged node `buildTree` produces for an empty response. -/
theorem root_unique_and_guarded_inert_witness :
    countRoots (buildTree { total_claims := 0, starting_nodes := [] }) = 1
    ∧ rootOnlyAtTop (buildTree { total_claims := 0, starting_nodes := [] })
        = true
    ∧ rootOnlyAtTop (expandAt "node_A" (Except.ok exData) exTree) = true
    ∧ countRoots (expandAt "node_A" (Except.ok exData) exTree) = 1
    ∧ rootOnlyAtTop (collapseAt "node_A" exTree) = true
    ∧ countRoots (collapseAt "node_A" exTree) = 1
    ∧ expandNode (FlowNode.mk exRootAttrs []) fetchErr
        = FlowNode.mk exRootAttrs []
    ∧ clickNode (FlowNode.mk exRootAttrs []) fetchErr
        = FlowNode.mk exRootAttrs [] :=
  root_unique_and_guarded_inert { total_claims := 0, starting_nodes := [] }
    exTree (FlowNode.mk exRootAttrs []) "node_A" (Except.ok exData) fetchErr
    (by decide) rfl

/-! ### C3 — collapse completeness in the flat graph (part_000) -/

/-- In a depth-consistent link set (every link goes one level down, as
guaranteed by `depth: parent.depth + 1` at node creation), reachability
strictly increases depth. -/
theorem reach_depth_lt (links : List GLink) (d : String → Nat)
    (Hd : ∀ l ∈ links, d l.target = d l.source + 1) :
    ∀ a b, Reach links a b → d a < d b := by
  intro a b h
  induction h with
  | single l hl =>
    rw [Hd l hl]
    omega
  | cons l b hl h ih =>
    have := Hd l hl
    omega

/-- Any node reachable from `a` is the target of some link whose source is
`a` itself or is reachable from `a`. -/
theorem reach_last_link (links : List GLink) :
    ∀ a b, Reach links a b →
      ∃ l ∈ links, l.target = b ∧ (l.source = a ∨ Reach links a l.source) := by
  intro a b h
  induction h with
  | single l hl =>
    exact ⟨l, hl, rfl, Or.inl rfl⟩
  | cons l b hl h ih =>
    obtain ⟨l2, hl2, ht2, hcase⟩ := ih
    refine ⟨l2, hl2, ht2, Or.inr ?_⟩
    rcases hcase with heq | hr
    · rw [heq]
      exact Reach.single l hl
    · exact Reach.cons l _ hl hr

/-- Completeness of the fuel-bounded `findDescendants`: with enough fuel for
the depth range it discovers every reachable node. -/
theorem reach_mem_findDescendants (links : List GLink) (d : String → Nat)
    (Hd : ∀ l ∈ links, d l.target = d l.source + 1) :
    ∀ a b, Reach links a b → ∀ fuel, d b ≤ d a + fuel →
      b ∈ findDescendants links fuel a := by
  intro a b h
  induction h with
  | single l hl =>
    intro fuel hfuel
    have h1 : d l.target = d l.source + 1 := Hd l hl
    have hf : 1 ≤ fuel := by omega
    obtain ⟨f, rfl⟩ : ∃ f, fuel = f + 1 := ⟨fuel - 1, by omega⟩
    simp only [findDescendants, List.mem_flatMap]
    refine ⟨l, List.mem_filter.mpr ⟨hl, by simp⟩, List.mem_cons_self _ _⟩
  | cons l b hl h ih =>
    intro fuel hfuel
    have h1 : d l.target = d l.source + 1 := Hd l hl
    have h2 : d l.target < d b := reach_depth_lt links d Hd _ _ h
    have hf : 2 ≤ fuel := by omega
    obtain ⟨f, rfl⟩ : ∃ f, fuel = f + 1 := ⟨fuel - 1, by omega⟩
    simp only [findDescendants, List.mem_flatMap]
    refine ⟨l, List.mem_filter.mpr ⟨hl, by simp⟩,
      List.mem_cons_of_mem _ (ih f (by omega))⟩

/-- C3.  In a depth-consistent, single-parent link set (the shape of every
materialized part_000 graph) with enough fuel for the depth range,
`collapseNode` removes every descendant `t` of the collapsed node from the
node list, and no remaining link touches a removed node: a surviving link's
source and target differ from every descendant of the collapsed node, and
its source is not the collapsed node itself. -/
theorem collapse_removes_descendants_and_links (st : GState) (nid : String)
    (fuel : Nat) (d : String → Nat) (t : String) (l : GLink) (m : GNode)
    (Hd : ∀ lk ∈ st.links, d lk.target = d lk.source + 1)
    (Hinj : ∀ l1 ∈ st.links, ∀ l2 ∈ st.links, l1.target = l2.target → l1 = l2)
    (Hb : ∀ lk ∈ st.links, d lk.target ≤ d nid + fuel)
    (ht : Reach st.links nid t)
    (hm : m ∈ (collapseNodeG fuel st nid).nodes)
    (hl : l ∈ (collapseNodeG fuel st nid).links) :
    m.id ≠ t ∧ l.source ≠ t ∧ l.target ≠ t ∧ l.source ≠ nid := by
  have hreach_mem : ∀ b, Reach st.links nid b →
      b ∈ findDescendants st.links fuel nid := by
    intro b hb
    obtain ⟨lk, hlk, hlt, _⟩ := reach_last_link st.links nid b hb
    exact reach_mem_findDescendants st.links d Hd nid b hb fuel
      (by rw [← hlt]; exact Hb lk hlk)
  have htmem : t ∈ findDescendants st.links fuel nid := hreach_mem t ht
  simp only [collapseNodeG, List.mem_filter, Bool.not_eq_true',
    Bool.or_eq_false_iff] at hm hl
  obtain ⟨hmm, hmc⟩ := hm
  obtain ⟨hlm, hls1, hls2⟩ := hl
  have hmnot : m.id ∉ findDescendants st.links fuel nid := by
    intro hcon
    rw [List.contains_eq_any_beq] at hmc
    have : (findDescendants st.links fuel nid).any (fun x => m.id == x)
        = true := List.any_eq_true.mpr ⟨m.id, hcon, by simp⟩
    rw [this] at hmc
    exact Bool.noConfusion hmc
  have hlsnot : l.source ∉ findDescendants st.links fuel nid := by
    intro hcon
    rw [List.contains_eq_any_beq] at hls2
    have : (findDescendants st.links fuel nid).any (fun x => l.source == x)
        = true := List.any_eq_true.mpr ⟨l.source, hcon, by simp⟩
    rw [this] at hls2
    exact Bool.noConfusion hls2
  have hlsnid : l.source ≠ nid := by
    intro hcon
    rw [hcon] at hls1
    simp at hls1
  refine ⟨?_, ?_, ?_, hlsnid⟩
  · intro hcon
    exact hmnot (hcon ▸ htmem)
  · intro hcon
    exact hlsnot (hcon ▸ htmem)
  · intro hcon
    obtain ⟨l2, hl2, hl2t, hcase⟩ := reach_last_link st.links nid t ht
    have : l = l2 := Hinj l hlm l2 hl2 (by rw [hcon, hl2t])
    rcases hcase with heq | hr
    · exact hlsnid (this ▸ heq)
    · exact hlsnot (this ▸ hreach_mem l2.source hr)

/-- A concrete part_000 graph: s → s_A → s_A_B and s → s_C. -/
def exGTree : GState :=
  { nodes := [{ id := "s", name := "s", count := 5, percentage := 100,
                depth := 0, path := ["s"], parentId := none,
                isStarting := true, isTermination := false },
              { id := "s_A", name := "A", count := 3, percentage := 60,
                depth := 1, path := ["s", "A"], parentId := some "s",
                isStarting := false, isTermination := false },
              { id := "s_A_B", name := "B", count := 2, percentage := 40,
                depth := 2, path := ["s", "A", "B"], parentId := some "s_A",
                isStarting := false, isTermination := false },
              { id := "s_C", name := "C", count := 2, percentage := 40,
                depth := 1, path := ["s", "C"], parentId := some "s",
                isStarting := false, isTermination := false }]
    links := [{ source := "s", target := "s_A" },
              { source := "s_A", target := "s_A_B" },
              { source := "s", target := "s_C" }] }

/-- The depth map of `exGTree`. -/
def exDepth : String → Nat :=
  fun x => if x = "s" then 0 else if x = "s_A_B" then 2 else 1

/-- Witness for C3: collapsing "s_A" in `exGTree` removes its descendant
"s_A_B", and the surviving node "s" and surviving link s → s_C avoid it. -/
theorem collapse_removes_descendants_and_links_witness :
    ({ id := "s", name := "s", count := 5, percentage := 100, depth := 0,
       path := ["s"], parentId := none, isStarting := true,
       isTermination := false } : GNode).id ≠ "s_A_B"
    ∧ ({ source := "s", target := "s_C" } : GLink).source ≠ "s_A_B"
    ∧ ({ source := "s", target := "s_C" } : GLink).target ≠ "s_A_B"
    ∧ ({ source := "s", target := "s_C" } : GLink).source ≠ "s_A" :=
  collapse_removes_descendants_and_links exGTree "s_A" 3 exDepth "s_A_B"
    { source := "s", target := "s_C" }
    { id := "s", name := "s", count := 5, percentage := 100, depth := 0,
      path := ["s"], parentId := none, isStarting := true,
      isTermination := false }
    (by decide) (by decide) (by decide)
    (Reach.single { source := "s_A", target := "s_A_B" } (by decide))
    (by decide) (by decide)

/-! ### C8 — path separator round trip -/

/-- Scanning a key that contains no `;;` never splits: the whole key is
appended to the accumulated piece. -/
theorem splitSSAux_no_sep :
    ∀ (k acc : List Char), hasSS k = false → splitSSAux k acc = [acc ++ k]
  | [], acc => by
    intro _
    simp [splitSSAux]
  | [c], acc => by
    intro _
    simp [splitSSAux]
  | c1 :: c2 :: rest, acc => by
    intro h
    simp only [hasSS, Bool.or_eq_false_iff] at h
    simp only [splitSSAux, h.1, Bool.false_eq_true, if_false]
    rw [splitSSAux_no_sep (c2 :: rest) (acc ++ [c1]) h.2]
    simp

/-- Scanning `k ++ ";;" ++ t` for a key `k` that contains no `;;` and does
not end in `;` cuts exactly at the separator. -/
theorem splitSSAux_before_sep :
    ∀ (k acc t : List Char), hasSS k = false → endsSemi k = false →
      splitSSAux (k ++ ';' :: ';' :: t) acc = (acc ++ k) :: splitSSAux t []
  | [], acc, t => by
    intro _ _
    simp [splitSSAux]
  | [c], acc, t => by
    intro _ hend
    simp only [endsSemi, List.getLast?_singleton] at hend
    have hc : (c == ';') = false := by
      cases hcc : c == ';' with
      | false => rfl
      | true => simp [hcc] at hend
    simp [splitSSAux, hc]
  | c1 :: c2 :: rest, acc, t => by
    intro h hend
    simp only [hasSS, Bool.or_eq_false_iff] at h
    have hend2 : endsSemi (c2 :: rest) = false := by
      simpa [endsSemi, List.getLast?_cons_cons] using hend
    simp only [List.cons_append, splitSSAux, h.1, Bool.false_eq_true,
      if_false]
    rw [show c2 :: rest.append (';' :: ';' :: t)
        = (c2 :: rest) ++ ';' :: ';' :: t by simp]
    rw [splitSSAux_before_sep (c2 :: rest) (acc ++ [c1]) t h.2 hend2]
    simp

/-- C8, counterexample to the claim as stated: the keys `"a;"` and `"b"`
contain no `;;` substring, yet joining with `;;` gives `"a;;;b"`, whose
leftmost split consumes the first two semicolons and reconstructs
`["a", ";b"]` instead of the original keys. -/
theorem path_separator_roundtrip_cex :
    (∀ k ∈ ([['a', ';'], ['b']] : List (List Char)), hasSS k = false)
    ∧ splitSS (joinSS [['a', ';'], ['b']]) ≠ [['a', ';'], ['b']] := by
  constructor
  · decide
  · decide

/-- C8, amended.  For a nonempty sequence of keys in which no key contains
the substring `;;` and no key other than the last ends with a single `;`
(keys may freely contain commas or pipe characters), joining with `;;` and
splitting on `;;` reconstructs exactly the original key sequence; the
activity-level tree joins request paths with `;;` (`activityPathStr`) while
the process-level tree joins with `,` (`processPathStr`). -/
theorem path_separator_roundtrip_amended :
    ∀ (keys : List (List Char)), keys ≠ [] →
      (∀ k ∈ keys, hasSS k = false) →
      (∀ k ∈ keys.dropLast, endsSemi k = false) →
      splitSS (joinSS keys) = keys
      ∧ activityPathStr [['a'], ['b']] = ['a', ';', ';', 'b']
      ∧ processPathStr [['a'], ['b']] = ['a', ',', 'b']
  | [] => by intro h _ _; exact absurd rfl h
  | [k] => by
    intro _ h2 _
    refine ⟨?_, rfl, rfl⟩
    simp only [joinSS, splitSS]
    rw [splitSSAux_no_sep k [] (h2 k (List.mem_singleton.mpr rfl))]
    simp
  | k :: k2 :: rest => by
    intro _ h2 h3
    refine ⟨?_, rfl, rfl⟩
    have hk : hasSS k = false := h2 k (List.mem_cons_self _ _)
    have hke : endsSemi k = false := by
      apply h3
      rw [show (k :: k2 :: rest).dropLast = k :: (k2 :: rest).dropLast from rfl]
      exact List.mem_cons_self _ _
    have ih := path_separator_roundtrip_amended (k2 :: rest)
      (List.cons_ne_nil _ _)
      (fun x hx => h2 x (List.mem_cons_of_mem _ hx))
      (fun x hx => h3 x (by
        rw [show (k :: k2 :: rest).dropLast
            = k :: (k2 :: rest).dropLast from rfl]
        exact List.mem_cons_of_mem _ hx))
    simp only [joinSS, splitSS] at ih ⊢
    rw [splitSSAux_before_sep k [] (joinSS (k2 :: rest)) hk hke]
    rw [show joinSS (k2 :: rest) = joinSS (k2 :: rest) from rfl]
    simp only [List.nil_append]
    rw [ih.1]

/-- Witness for C8 (amended): keys containing a comma and pipes round-trip
through the `;;` join/split. -/
theorem path_separator_roundtrip_amended_witness :
    splitSS (joinSS [['a', ','], ['P', '|', 'b']]) = [['a', ','], ['P', '|', 'b']]
    ∧ activityPathStr [['a'], ['b']] = ['a', ';', ';', 'b']
    ∧ processPathStr [['a'], ['b']] = ['a', ',', 'b'] :=
  path_separator_roundtrip_amended [['a', ','], ['P', '|', 'b']]
    (by decide) (by decide) (by decide)

end ClaimFlow
